import Mathlib

/-!
Shallow embedding of the tabular report engine of `report_generator.py`:
the data model (a pandas `DataFrame` of string / floating-point / null
cells) and the four transforms `group_by_report`,
`case_report_multiple_conditions`, `pivot_report` and `unpivot_report`,
followed by theorems checking the specification's claims about them.

Floating-point cell values are modelled as rationals: no claim concerns
rounding, and every number the program manipulates here is decimal.
-/

namespace ReportGen

attribute [local semireducible] Rat.add Rat.mul Rat.sub Rat.inv

/-- A scalar cell: a string, a (floating-point) number, or null
(pandas `NaN` / `None`). -/
inductive Value where
  | str (s : String)
  | num (x : Rat)
  | null
deriving DecidableEq, Repr

/-- A pandas `DataFrame`: named columns over rows of scalar cells, stored
row-major.  The index of a grouped or pivoted frame is materialized as its
leading columns (the program always exports with `index=True`). -/
structure Table where
  header : List String
  rows : List (List Value)
deriving DecidableEq, Repr

/-- Table invariants (§3 of the specification): unique column names and
rectangular shape. -/
def Table.WF (t : Table) : Prop :=
  t.header.Nodup ∧ ∀ r ∈ t.rows, r.length = t.header.length

instance (t : Table) : Decidable t.WF :=
  inferInstanceAs
    (Decidable (t.header.Nodup ∧ ∀ r ∈ t.rows, r.length = t.header.length))

deriving instance DecidableEq for Except

/-- Position of a column name in a header (pandas column lookup). -/
def colIdx : List String → String → Option Nat
  | [], _ => none
  | h :: hs, c => if h = c then some 0 else (colIdx hs c).map (· + 1)

/-- The cell of row `r` in the column named `c` (null when the column is
absent; the transforms only read columns whose presence they have
checked). -/
def cellOf (header : List String) (r : List Value) (c : String) : Value :=
  match colIdx header c with
  | some i => r.getD i Value.null
  | none => Value.null

/-- A float as the comparisons see it: a finite rational or `NaN` (every
comparison involving `NaN` is false). -/
inductive FloatVal where
  | fin (x : Rat)
  | nan
deriving DecidableEq, Repr

/-- Decimal digit test, as Python's float parsing performs it. -/
def charDigit (c : Char) : Bool := '0' ≤ c && c ≤ '9'

/-- Numeric value of a digit string. -/
def digitsVal (cs : List Char) : Nat :=
  cs.foldl (fun a c => 10 * a + (c.toNat - 48)) 0

/-- Non-empty all-digit parse. -/
def parseDigits (cs : List Char) : Option Nat :=
  if cs ≠ [] && cs.all charDigit then some (digitsVal cs) else none

/-- Unsigned decimal mantissa: `123`, `123.45`, `123.` or `.45`. -/
def parseMant (cs : List Char) : Option Rat :=
  match cs.splitOn '.' with
  | [w] => (parseDigits w).map (fun n => (n : Rat))
  | [w, f] =>
      if w = [] && f = [] then none
      else if w.all charDigit && f.all charDigit then
        some ((digitsVal w : Rat) + (digitsVal f : Rat) / (10 : Rat) ^ f.length)
      else none
  | _ => none

/-- Optionally signed decimal exponent. -/
def parseExpPart (cs : List Char) : Option (Bool × Nat) :=
  match cs with
  | '+' :: rest => (parseDigits rest).map (fun n => (false, n))
  | '-' :: rest => (parseDigits rest).map (fun n => (true, n))
  | _ => (parseDigits cs).map (fun n => (false, n))

/-- Scale a mantissa by a signed power of ten. -/
def scalePow (m : Rat) (neg : Bool) (e : Nat) : Rat :=
  if neg then m / (10 : Rat) ^ e else m * (10 : Rat) ^ e

/-- Fold `E` to `e` so the exponent split is case-insensitive. -/
def lowerE (c : Char) : Char := if c = 'E' then 'e' else c

/-- Unsigned float literal: mantissa with optional exponent. -/
def parseMantExp (cs : List Char) : Option Rat :=
  match (cs.map lowerE).splitOn 'e' with
  | [m] => parseMant m
  | [m, e] =>
      match parseMant m, parseExpPart e with
      | some mv, some se => some (scalePow mv se.1 se.2)
      | _, _ => none
  | _ => none

/-- Python `float(s)` on decimal literals: optional sign, decimal mantissa,
optional exponent.  (Python additionally strips whitespace and accepts the
words `inf` and `nan`; the values this program feeds to `float` are
ordinary numerals, which this parse covers.) -/
def pyFloat? (s : String) : Option Rat :=
  match s.toList with
  | '+' :: rest => parseMantExp rest
  | '-' :: rest => (parseMantExp rest).map (fun x => -x)
  | cs => parseMantExp cs

/-- `astype(float)` on one cell: a number is already a float, null is the
float `NaN`, and a string must parse as a numeral. -/
def coerceFloat : Value → Option FloatVal
  | Value.num x => some (FloatVal.fin x)
  | Value.null => some FloatVal.nan
  | Value.str s => (pyFloat? s).map FloatVal.fin

/-- A float comparison on a cell against an optional parsed threshold:
false on `NaN` and on the (ruled out by validation) unparsed cases. -/
def numCmp (cmp : Rat → Rat → Bool) (v : Value) (thr : Option Rat) : Bool :=
  match coerceFloat v, thr with
  | some (FloatVal.fin x), some t => cmp x t
  | _, _ => false

/-- Python `str.startswith`. -/
def strStarts (p s : String) : Bool := p.toList.isPrefixOf s.toList

/-- Python string slice `s[n:]`. -/
def strTail (s : String) (n : Nat) : String := String.mk (s.toList.drop n)

/-- One recode rule: the dict key (a literal or a comparison such as
`>500`) and the replacement written when the rule matches. -/
abbrev RuleList := List (String × String)

/-- A recode rule set: the `conditions_dict` association list a Python
dict holds — column names (distinct, in insertion order) each mapped to an
ordered rule list. -/
abbrev CondDict := List (String × RuleList)

/-- The boolean one rule contributes at one cell, mirroring the
`startswith` dispatch of `case_report_multiple_conditions` (source lines
60-70): the four comparison forms coerce the cell to float and compare it
with the parsed threshold, any other key is a pandas `==` against the key
string (a number or null never equals a string). -/
def ruleMatches (k : String) (v : Value) : Bool :=
  if strStarts ">=" k then numCmp (fun x t => decide (t ≤ x)) v (pyFloat? (strTail k 2))
  else if strStarts "<=" k then numCmp (fun x t => decide (x ≤ t)) v (pyFloat? (strTail k 2))
  else if strStarts "<" k then numCmp (fun x t => decide (x < t)) v (pyFloat? (strTail k 1))
  else if strStarts ">" k then numCmp (fun x t => decide (t < x)) v (pyFloat? (strTail k 1))
  else decide (v = Value.str k)

/-- `np.select(condition_list, result_list, default=v)` at one row: the
first rule whose condition holds selects its replacement, otherwise the
original value stays. -/
def selectValue (rules : RuleList) (v : Value) : Value :=
  match rules.find? (fun kr => ruleMatches kr.1 v) with
  | some kr => Value.str kr.2
  | none => v

/-- `np.any(condition_list, axis=0)` at one row. -/
def anyRule (rules : RuleList) (v : Value) : Bool :=
  rules.any (fun kr => ruleMatches kr.1 v)

/-- The exceptions the recode transform lets escape to its caller:
`missingColumn` is the `KeyError` on a configured column absent from the
frame, `typeCoercion` the `ValueError` of `astype(float)` on a
non-numeric cell (column, row position, offending value), `badThreshold`
the `ValueError` of `float` on a malformed rule threshold, `emptySelect`
the `np.select` error on a column configured with no rules. -/
inductive RecodeErr where
  | missingColumn (c : String)
  | typeCoercion (c : String) (row : Nat) (v : Value)
  | badThreshold (c : String) (key : String)
  | emptySelect (c : String)
deriving DecidableEq, Repr

/-- Whether a rule key takes one of the four comparison forms. -/
def numericKey (k : String) : Bool :=
  strStarts ">=" k || strStarts "<=" k || strStarts "<" k || strStarts ">" k

/-- Characters the comparison operator of a key occupies. -/
def keyOpLen (k : String) : Nat :=
  if strStarts ">=" k || strStarts "<=" k then 2 else 1

/-- First non-coercible cell, counting from `i` — the cell `astype(float)`
trips over. -/
def firstBadCell (i : Nat) : List Value → Option (Nat × Value)
  | [] => none
  | v :: vs =>
      if (coerceFloat v).isNone then some (i, v) else firstBadCell (i + 1) vs

/-- The whole-column work one rule performs before any row is decided: a
comparison key runs `astype(float)` over every cell of the column, then
parses its threshold; an equality key touches nothing. -/
def checkRule (c : String) (vals : List Value) (k : String) : Except RecodeErr Unit :=
  if numericKey k then
    match firstBadCell 0 vals with
    | some iv => Except.error (RecodeErr.typeCoercion c iv.1 iv.2)
    | none =>
        match pyFloat? (strTail k (keyOpLen k)) with
        | some _ => Except.ok ()
        | none => Except.error (RecodeErr.badThreshold c k)
  else Except.ok ()

/-- Validation of a column's rule list, in declaration order. -/
def checkRules (c : String) (vals : List Value) : RuleList → Except RecodeErr Unit
  | [] => Except.ok ()
  | kr :: rest =>
      match checkRule c vals kr.1 with
      | Except.error e => Except.error e
      | Except.ok _ => checkRules c vals rest

/-- Source line 74: write the recoded column back into every row. -/
def applyColumn (rows : List (List Value)) (i : Nat) (rules : RuleList) :
    List (List Value) :=
  rows.map (fun r => r.set i (selectValue rules (r.getD i Value.null)))

/-- Source line 75: the per-row disjunction of the column's rule matches. -/
def columnMask (rows : List (List Value)) (i : Nat) (rules : RuleList) : List Bool :=
  rows.map (fun r => anyRule rules (r.getD i Value.null))

/-- The loop of source lines 56-75 over the configured columns, threading
the recoded rows and the conjunctive filter mask. -/
def recodeGo (header : List String) :
    CondDict → List (List Value) → List Bool →
    Except RecodeErr (List (List Value) × List Bool)
  | [], rows, mask => Except.ok (rows, mask)
  | (c, rules) :: rest, rows, mask =>
      match colIdx header c with
      | none => Except.error (RecodeErr.missingColumn c)
      | some i =>
          match checkRules c (rows.map (fun r => r.getD i Value.null)) rules with
          | Except.error e => Except.error e
          | Except.ok _ =>
              if rules.isEmpty then Except.error (RecodeErr.emptySelect c)
              else
                recodeGo header rest (applyColumn rows i rules)
                  (List.zipWith (· && ·) mask (columnMask rows i rules))

/-- `case_report_multiple_conditions` (source lines 49-78).  An empty rule
set returns the input frame itself (line 51); otherwise the columns are
recoded in insertion order and the rows kept are those whose mask entry
survived every configured column. -/
def case_report_multiple_conditions (t : Table) (conds : CondDict) :
    Except RecodeErr Table :=
  if conds.isEmpty then Except.ok t
  else
    match recodeGo t.header conds t.rows (t.rows.map (fun _ => true)) with
    | Except.error e => Except.error e
    | Except.ok rm =>
        Except.ok ⟨t.header,
          (rm.1.zip rm.2).filterMap (fun rb => if rb.2 then some rb.1 else none)⟩

/-- One row after all configured columns are recoded (the row-level reading
of lines 56-74). -/
def rowRecoded (header : List String) (conds : CondDict) (r : List Value) :
    List Value :=
  conds.foldl (fun r cr =>
    match colIdx header cr.1 with
    | some i => r.set i (selectValue cr.2 (r.getD i Value.null))
    | none => r) r

/-- Whether one row passes the combined filter: every configured column
has at least one matching rule (the row-level reading of line 75). -/
def rowKept (header : List String) (conds : CondDict) (r : List Value) : Bool :=
  conds.all (fun cr => anyRule cr.2 (cellOf header r cr.1))

/-- The aggregation identifiers the program's menu offers to `agg`. -/
def knownAggs : List String := ["sum", "mean", "min", "max", "count", "first", "last"]

/-- Sum of a list of rationals. -/
def ratSum (xs : List Rat) : Rat := xs.foldl (· + ·) 0

/-- The numeric cells of a column (what a pandas reduction with its
default `skipna` consumes). -/
def numsOf (vs : List Value) : List Rat :=
  vs.filterMap (fun v =>
    match v with
    | Value.num x => some x
    | _ => none)

/-- The non-null cells of a column. -/
def dropNull (vs : List Value) : List Value :=
  vs.filter (fun v => decide (v ≠ Value.null))

/-- One pandas reduction applied to the cells of one group (`skipna`
semantics on the numeric data the program aggregates: `sum` of no numeric
cell is 0, `mean`/`min`/`max` of none is null, `count` counts non-null
cells, `first`/`last` take the first/last non-null cell). -/
def applyAgg (f : String) (vs : List Value) : Value :=
  if f = "sum" then Value.num (ratSum (numsOf vs))
  else if f = "mean" then
    match numsOf vs with
    | [] => Value.null
    | xs => Value.num (ratSum xs / (xs.length : Rat))
  else if f = "min" then
    match numsOf vs with
    | [] => Value.null
    | x :: xs => Value.num (xs.foldl min x)
  else if f = "max" then
    match numsOf vs with
    | [] => Value.null
    | x :: xs => Value.num (xs.foldl max x)
  else if f = "count" then Value.num ((dropNull vs).length : Rat)
  else if f = "first" then (dropNull vs).headD Value.null
  else if f = "last" then (dropNull vs).getLastD Value.null
  else Value.null

/-- Distinct elements in order of first occurrence (auxiliary). -/
def firstOccurAux {α : Type} [DecidableEq α] : List α → List α → List α
  | acc, [] => acc
  | acc, x :: xs => firstOccurAux (if x ∈ acc then acc else acc ++ [x]) xs

/-- Distinct elements of a list in order of first occurrence: the group
enumeration.  (pandas enumerates groups sorted by key; every property
stated below is insensitive to the enumeration order, which this embedding
fixes as first occurrence.) -/
def firstOccur {α : Type} [DecidableEq α] (l : List α) : List α :=
  firstOccurAux [] l

/-- The exceptions the grouping, pivot and melt transforms let escape on a
bad configuration: `unknownColumn` the `KeyError` on a column name absent
from the frame (or absent from the selected aggregation columns),
`unknownAgg` the error `agg` raises on an unrecognized function name,
`noGroupKeys` the `groupby` error on an empty key list. -/
inductive ConfigErr where
  | unknownColumn (c : String)
  | unknownAgg (f : String)
  | noGroupKeys
deriving DecidableEq, Repr

/-- The tuple of grouping-column values that keys one row's group. -/
def groupKey (header : List String) (gcols : List String) (r : List Value) :
    List Value :=
  gcols.map (cellOf header r)

/-- `group_by_report` (source lines 45-47):
`df.groupby(group_by_columns, dropna=False)[aggregation_columns].agg(aggregation_funcs)`.
With `dropna=False` null keys are kept, so rows with null grouping cells
form their own group; two rows share a group exactly when their key tuples
are equal (null equal to null here).  `aggregation_funcs` is the dict
mapping an aggregation column to its function name.  The group key — the
index of the resulting frame — is materialized as the leading columns. -/
def group_by_report (t : Table) (group_by_columns aggregation_columns : List String)
    (aggregation_funcs : List (String × String)) : Except ConfigErr Table :=
  if group_by_columns.isEmpty then Except.error ConfigErr.noGroupKeys
  else
    match group_by_columns.find? (fun c => decide (c ∉ t.header)) with
    | some c => Except.error (ConfigErr.unknownColumn c)
    | none =>
      match aggregation_columns.find? (fun c => decide (c ∉ t.header)) with
      | some c => Except.error (ConfigErr.unknownColumn c)
      | none =>
        match aggregation_funcs.find? (fun cf => decide (cf.1 ∉ aggregation_columns)) with
        | some cf => Except.error (ConfigErr.unknownColumn cf.1)
        | none =>
          match aggregation_funcs.find? (fun cf => decide (cf.2 ∉ knownAggs)) with
          | some cf => Except.error (ConfigErr.unknownAgg cf.2)
          | none =>
            Except.ok ⟨group_by_columns ++ aggregation_funcs.map Prod.fst,
              (firstOccur (t.rows.map (groupKey t.header group_by_columns))).map
                (fun key =>
                  key ++ aggregation_funcs.map (fun cf =>
                    applyAgg cf.2
                      ((t.rows.filter
                          (fun r => decide (groupKey t.header group_by_columns r = key))).map
                        (fun r => cellOf t.header r cf.1))))⟩

/-- Rendering of a pivoted column key as its column label.  (pandas keeps
the key value itself as the label; no claim inspects the rendering.) -/
def labelOf : Value → String
  | Value.str s => s
  | Value.num x =>
      String.mk ((if x.num < 0 then ['-'] else []) ++
        Nat.toDigits 10 x.num.natAbs ++
        (if x.den = 1 then [] else '/' :: Nat.toDigits 10 x.den))
  | Value.null => ""

/-- One cell of the pivot grid: the `sum` of the value column over the
given rows carrying the given (index, columns) key pair, null when no row
matches. -/
def pivotCell (header : List String) (rows : List (List Value))
    (columns values : String) (index : String) (iv cv : Value) : Value :=
  match rows.filter (fun r =>
      decide (cellOf header r index = iv ∧ cellOf header r columns = cv)) with
  | [] => Value.null
  | ms => Value.num (ratSum (numsOf (ms.map (fun r => cellOf header r values))))

/-- The rows `pivot_table` keeps: those whose index key and columns key
are both non-null (detail of `pivot_report`). -/
def keyRowsOf (t : Table) (index columns : String) : List (List Value) :=
  t.rows.filter (fun r =>
    decide (cellOf t.header r index ≠ Value.null ∧
      cellOf t.header r columns ≠ Value.null))

/-- The distinct index keys of the pivot, one output row each. -/
def pivotIvs (t : Table) (index columns : String) : List Value :=
  firstOccur ((keyRowsOf t index columns).map (fun r => cellOf t.header r index))

/-- The distinct columns keys of the pivot, one output column each. -/
def pivotCvs (t : Table) (index columns : String) : List Value :=
  firstOccur ((keyRowsOf t index columns).map (fun r => cellOf t.header r columns))

/-- `pivot_report` (source lines 80-83):
`df.pivot_table(index=index, columns=columns, values=values, aggfunc='sum')`
followed by `reset_index()`.  `pivot_table` silently drops every row whose
index key or columns key is null, enumerates the distinct surviving index
values (one output row each) and columns values (one output column each),
and fills each cell with the sum of the value column over the matching
rows — null where no row matches; `reset_index` materializes the index as
the leading output column. -/
def pivot_report (t : Table) (index columns values : String) :
    Except ConfigErr Table :=
  if index ∉ t.header then Except.error (ConfigErr.unknownColumn index)
  else if columns ∉ t.header then Except.error (ConfigErr.unknownColumn columns)
  else if values ∉ t.header then Except.error (ConfigErr.unknownColumn values)
  else
    Except.ok
      ⟨index :: (pivotCvs t index columns).map labelOf,
        (pivotIvs t index columns).map (fun iv =>
          iv :: (pivotCvs t index columns).map
            (pivotCell t.header (keyRowsOf t index columns) columns values index iv))⟩

/-- `unpivot_report` (source lines 85-87): `pd.melt(df, id_vars, value_vars)`.
For every melted column (outer) and every input row (inner) one output row
is emitted: the identifier cells copied verbatim, then the melted column's
name, then its cell in that row. -/
def unpivot_report (t : Table) (id_vars value_vars : List String) :
    Except ConfigErr Table :=
  match (id_vars ++ value_vars).find? (fun c => decide (c ∉ t.header)) with
  | some c => Except.error (ConfigErr.unknownColumn c)
  | none =>
      Except.ok ⟨id_vars ++ ["variable", "value"],
        value_vars.flatMap (fun m => t.rows.map (fun r =>
          id_vars.map (cellOf t.header r) ++
            [Value.str m, cellOf t.header r m]))⟩

/-- `unpivot_report_from_pivot` (source lines 89-93): as `unpivot_report`,
but identifier names absent from the (data-dependent) pivot output are
silently dropped first. -/
def unpivot_report_from_pivot (t : Table) (id_vars value_vars : List String) :
    Except ConfigErr Table :=
  unpivot_report t (id_vars.filter (fun c => decide (c ∈ t.header))) value_vars

/-- Python object identity for the frames the transforms pass around: the
frame's value together with the id of the heap object holding it.  Each
transform receives its input object and a fresh id (unused by the caller,
as Python allocation guarantees) with which a newly allocated result frame
is tagged; a path that returns its argument itself keeps the input's id. -/
structure TableObj where
  oid : Nat
  val : Table
deriving DecidableEq, Repr

/-- `case_report_multiple_conditions` at object level: on an empty rule
set line 51 returns the input object itself; every other path builds the
result from the `df.copy()` of line 53 and returns a fresh object. -/
def caseReportObj (df : TableObj) (conds : CondDict) (fresh : Nat) :
    Except RecodeErr TableObj :=
  if conds.isEmpty then Except.ok df
  else (case_report_multiple_conditions df.val conds).map (fun t => ⟨fresh, t⟩)

/-- `group_by_report` at object level: `groupby(...).agg(...)` always
allocates the result frame. -/
def groupByObj (df : TableObj) (gcols acols : List String)
    (funcs : List (String × String)) (fresh : Nat) : Except ConfigErr TableObj :=
  (group_by_report df.val gcols acols funcs).map (fun t => ⟨fresh, t⟩)

/-- `pivot_report` at object level: `pivot_table` allocates the result
frame (the in-place `reset_index` of line 82 mutates that fresh frame,
never the input). -/
def pivotObj (df : TableObj) (index columns values : String) (fresh : Nat) :
    Except ConfigErr TableObj :=
  (pivot_report df.val index columns values).map (fun t => ⟨fresh, t⟩)

/-- `unpivot_report` at object level: `melt` always allocates the result
frame. -/
def unpivotObj (df : TableObj) (id_vars value_vars : List String) (fresh : Nat) :
    Except ConfigErr TableObj :=
  (unpivot_report df.val id_vars value_vars).map (fun t => ⟨fresh, t⟩)

/-! ### Concrete example frames (used to witness the claim theorems) -/

/-- A one-column frame of colors (the specification's recode-filter
example). -/
def exRecodeT : Table :=
  ⟨["color"], [[Value.str "Black"], [Value.str "Red"], [Value.str "Silver"]]⟩

/-- Rules Black→Dark, Silver→Light on the color column. -/
def exRecodeC : CondDict := [("color", [("Black", "Dark"), ("Silver", "Light")])]

/-- The recode of `exRecodeT` under `exRecodeC`: Red dropped, the rest
recoded in order. -/
def exRecodeO : Table := ⟨["color"], [[Value.str "Dark"], [Value.str "Light"]]⟩

/-- A one-row frame with speed 600 (the specification's first-match-wins
example). -/
def exSpeedT : Table := ⟨["speed"], [[Value.num 600]]⟩

/-- Rules `>500`→High, `>=0`→Low on the speed column: both match 600. -/
def exSpeedC : CondDict := [("speed", [(">500", "High"), (">=0", "Low")])]

/-- The recode of `exSpeedT` under `exSpeedC`: the first rule wins. -/
def exSpeedO : Table := ⟨["speed"], [[Value.str "High"]]⟩

/-- Grouping column `x` = [1, null, null] with values to sum (the
specification's null-grouping example). -/
def exGroupT : Table :=
  ⟨["x", "y"],
    [[Value.num 1, Value.num 10], [Value.null, Value.num 20],
      [Value.null, Value.num 30]]⟩

/-- A frame whose recode rules mix an equality rule with a numeric rule on
a column containing a non-coercible cell. -/
def exCoerceT : Table := ⟨["c"], [[Value.str "Black"], [Value.str "oops"]]⟩

/-- Rules Black→Dark, `>500`→High: the numeric rule forces the whole `c`
column through `astype(float)`. -/
def exCoerceC : CondDict := [("c", [("Black", "Dark"), (">500", "High")])]

/-- A pivot input with null index and columns keys among the rows. -/
def exPivotT : Table :=
  ⟨["i", "c", "v"],
    [[Value.str "a", Value.str "p", Value.num 1],
      [Value.str "a", Value.str "q", Value.num 2],
      [Value.str "b", Value.str "p", Value.num 3],
      [Value.null, Value.str "p", Value.num 9],
      [Value.str "a", Value.null, Value.num 7]]⟩

/-- The pivot of `exPivotT` over index `i`, columns `c`, values `v`. -/
def exPivotO : Table :=
  ⟨["i", "p", "q"],
    [[Value.str "a", Value.num 1, Value.num 2],
      [Value.str "b", Value.num 3, Value.null]]⟩

/-- A two-row, two-value-column melt input. -/
def exMeltT : Table :=
  ⟨["id", "u", "w"],
    [[Value.str "r1", Value.num 1, Value.num 2],
      [Value.str "r2", Value.num 3, Value.num 4]]⟩

/-- The melt of `exMeltT` with identifier `id` and value columns `u`, `w`. -/
def exMeltO : Table :=
  ⟨["id", "variable", "value"],
    [[Value.str "r1", Value.str "u", Value.num 1],
      [Value.str "r2", Value.str "u", Value.num 3],
      [Value.str "r1", Value.str "w", Value.num 2],
      [Value.str "r2", Value.str "w", Value.num 4]]⟩

/-- A one-column frame used for the bad-configuration witness. -/
def exBadT : Table := ⟨["x"], [[Value.num 1]]⟩

/-! ### Column lookup lemmas -/

theorem colIdx_lt {hs : List String} {c : String} {i : Nat}
    (h : colIdx hs c = some i) : i < hs.length := by
  induction hs generalizing i with
  | nil => simp [colIdx] at h
  | cons x xs ih =>
      by_cases hx : x = c
      · simp [colIdx, hx] at h
        simp only [List.length_cons]
        omega
      · simp only [colIdx, if_neg hx, Option.map_eq_some'] at h
        obtain ⟨j, hj, rfl⟩ := h
        have := ih hj
        simp only [List.length_cons]
        omega

theorem colIdx_getD {hs : List String} {c : String} {i : Nat}
    (h : colIdx hs c = some i) : hs.getD i "" = c := by
  induction hs generalizing i with
  | nil => simp [colIdx] at h
  | cons x xs ih =>
      by_cases hx : x = c
      · simp [colIdx, hx] at h
        subst h
        simpa using hx
      · simp only [colIdx, if_neg hx, Option.map_eq_some'] at h
        obtain ⟨j, hj, rfl⟩ := h
        simpa using ih hj

theorem colIdx_ne {hs : List String} {c c' : String} {i j : Nat}
    (hc : colIdx hs c = some i) (hc' : colIdx hs c' = some j)
    (hne : c ≠ c') : i ≠ j := by
  intro hij
  exact hne (by rw [← colIdx_getD hc, hij, colIdx_getD hc'])

theorem colIdx_isSome_iff {hs : List String} {c : String} :
    (colIdx hs c).isSome ↔ c ∈ hs := by
  induction hs with
  | nil => simp [colIdx]
  | cons x xs ih =>
      by_cases hx : x = c
      · simp [colIdx, hx]
      · simp [colIdx, hx, Option.isSome_map', ih, Ne.symm hx]

theorem cellOf_eq_getD {header : List String} {c : String} {i : Nat}
    (h : colIdx header c = some i) (r : List Value) :
    cellOf header r c = r.getD i Value.null := by
  simp [cellOf, h]

/-- Recoding one column does not change the cell another column name reads. -/
theorem cellOf_set_ne {header : List String} {c c' : String} {i : Nat}
    (hi : colIdx header c = some i) (hne : c' ≠ c) (r : List Value) (a : Value) :
    cellOf header (r.set i a) c' = cellOf header r c' := by
  unfold cellOf
  cases hj : colIdx header c' with
  | none => rfl
  | some j =>
      have hij : i ≠ j := colIdx_ne hi hj (fun h => hne h.symm)
      simp [List.getElem?_set_ne hij]

/-! ### Boolean vector lemmas -/

theorem zipWith_and_assoc (a b c : List Bool) :
    List.zipWith (· && ·) (List.zipWith (· && ·) a b) c =
      List.zipWith (· && ·) a (List.zipWith (· && ·) b c) := by
  induction a generalizing b c with
  | nil => simp
  | cons x xs ih =>
      cases b with
      | nil => simp
      | cons y ys =>
          cases c with
          | nil => simp
          | cons z zs => simp [ih, Bool.and_assoc]

theorem zipWith_and_map_same {α : Type} (l : List α) (f g : α → Bool) :
    List.zipWith (· && ·) (l.map f) (l.map g) = l.map (fun x => f x && g x) := by
  induction l with
  | nil => rfl
  | cons x xs ih => simp [ih]

theorem zipWith_and_true {α : Type} {mask : List Bool} {l : List α}
    (h : mask.length = l.length) :
    List.zipWith (· && ·) mask (l.map (fun _ => true)) = mask := by
  induction mask generalizing l with
  | nil => rfl
  | cons x xs ih =>
      cases l with
      | nil => simp at h
      | cons y ys =>
          simp only [List.length_cons, Nat.succ_inj] at h
          simp only [List.map_cons, List.zipWith_cons_cons, Bool.and_true]
          rw [ih h]

theorem zip_map_filterMap {α β : Type} (l : List α) (f : α → β) (g : α → Bool) :
    ((l.map f).zip (l.map g)).filterMap
        (fun rb => if rb.2 then some rb.1 else none) =
      l.filterMap (fun x => if g x then some (f x) else none) := by
  induction l with
  | nil => rfl
  | cons x xs ih =>
      by_cases hx : g x <;> simp [hx, ih]

/-! ### Row-level recode lemmas -/

theorem rowKept_cons (header : List String) (cr : String × RuleList)
    (rest : CondDict) (r : List Value) :
    rowKept header (cr :: rest) r =
      (anyRule cr.2 (cellOf header r cr.1) && rowKept header rest r) := by
  simp [rowKept]

theorem rowKept_set {header : List String} {c : String} {i : Nat}
    {rest : CondDict} (hi : colIdx header c = some i)
    (hrest : ∀ cr ∈ rest, cr.1 ≠ c) (r : List Value) (a : Value) :
    rowKept header rest (r.set i a) = rowKept header rest r := by
  unfold rowKept
  induction rest with
  | nil => rfl
  | cons cr rest ih =>
      have h1 : cr.1 ≠ c := hrest cr (by simp)
      have h2 : ∀ cr' ∈ rest, cr'.1 ≠ c := fun cr' h => hrest cr' (by simp [h])
      simp [cellOf_set_ne hi h1, ih h2]

theorem rowRecoded_nil (header : List String) (r : List Value) :
    rowRecoded header [] r = r := rfl

theorem rowRecoded_cons (header : List String) (cr : String × RuleList)
    (rest : CondDict) (r : List Value) :
    rowRecoded header (cr :: rest) r =
      rowRecoded header rest
        (match colIdx header cr.1 with
         | some i => r.set i (selectValue cr.2 (r.getD i Value.null))
         | none => r) := rfl

theorem length_rowRecoded (header : List String) (conds : CondDict)
    (r : List Value) : (rowRecoded header conds r).length = r.length := by
  induction conds generalizing r with
  | nil => rfl
  | cons cr rest ih =>
      rw [rowRecoded_cons]
      cases h : colIdx header cr.1 with
      | none => exact ih r
      | some i => simpa using ih (r.set i (selectValue cr.2 (r.getD i Value.null)))

/-- Columns not configured keep their cell through a full row recode. -/
theorem cellOf_rowRecoded_ne {header : List String} {conds : CondDict}
    {c : String} (h : ∀ cr ∈ conds, cr.1 ≠ c) (r : List Value) :
    cellOf header (rowRecoded header conds r) c = cellOf header r c := by
  induction conds generalizing r with
  | nil => rfl
  | cons cr rest ih =>
      have h1 : cr.1 ≠ c := h cr (by simp)
      have h2 : ∀ cr' ∈ rest, cr'.1 ≠ c := fun cr' hm => h cr' (by simp [hm])
      rw [rowRecoded_cons]
      cases hc : colIdx header cr.1 with
      | none => exact ih h2 r
      | some i =>
          rw [ih h2, cellOf_set_ne hc (Ne.symm h1)]

/-- The recoded cell of a configured column is the first-match select of
its rule list applied to the original cell. -/
theorem rowRecoded_cell {header : List String} {conds : CondDict}
    {c : String} {rules : RuleList} {i : Nat} {r : List Value}
    (hnd : (conds.map Prod.fst).Nodup) (hmem : (c, rules) ∈ conds)
    (hi : colIdx header c = some i) (hlen : header.length ≤ r.length) :
    cellOf header (rowRecoded header conds r) c =
      selectValue rules (cellOf header r c) := by
  induction conds generalizing r with
  | nil => simp at hmem
  | cons cr rest ih =>
      simp only [List.map_cons, List.nodup_cons] at hnd
      rcases List.mem_cons.mp hmem with heq | hrest
      · have hc1 : cr.1 = c := by rw [← heq]
        have hc2 : cr.2 = rules := by rw [← heq]
        have hnotin : ∀ cr' ∈ rest, cr'.1 ≠ c := by
          intro cr' hm hc
          exact hnd.1 (hc1 ▸ hc ▸ List.mem_map_of_mem Prod.fst hm)
        rw [rowRecoded_cons, hc1, hc2]
        simp only [hi]
        rw [cellOf_rowRecoded_ne hnotin, cellOf_eq_getD hi, cellOf_eq_getD hi]
        have hilt : i < r.length := lt_of_lt_of_le (colIdx_lt hi) hlen
        simp [List.getD_eq_getElem?_getD, List.getElem?_set_self hilt]
      · have hne : c ≠ cr.1 := by
          intro hc
          exact hnd.1 (hc ▸ List.mem_map_of_mem Prod.fst hrest)
        rw [rowRecoded_cons]
        cases hj : colIdx header cr.1 with
        | none => exact ih hnd.2 hrest hlen
        | some j =>
            have hlen' :
                header.length ≤
                  (r.set j (selectValue cr.2 (r.getD j Value.null))).length := by
              simpa using hlen
            rw [ih hnd.2 hrest hlen', cellOf_set_ne hj hne]

/-! ### The success behavior of the recode loop -/

theorem length_applyColumn (rows : List (List Value)) (i : Nat)
    (rules : RuleList) : (applyColumn rows i rules).length = rows.length := by
  simp [applyColumn]

/-- Every column a successful recode loop consumed exists in the header. -/
theorem recodeGo_cols {header : List String} {conds : CondDict} :
    ∀ {rows : List (List Value)} {mask : List Bool}
      {out : List (List Value) × List Bool},
      recodeGo header conds rows mask = Except.ok out →
      ∀ cr ∈ conds, (colIdx header cr.1).isSome := by
  induction conds with
  | nil => intro rows mask out _ cr hm; simp at hm
  | cons cr0 rest ih =>
      intro rows mask out h cr hm
      obtain ⟨c, rules⟩ := cr0
      simp only [recodeGo] at h
      split at h
      · cases h
      · rename_i i hc
        split at h
        · cases h
        · split at h
          · cases h
          · rcases List.mem_cons.mp hm with heq | hrest
            · rw [heq]; simp [hc]
            · exact ih h cr hrest

/-- A successful run of the recode loop computes, per row, the sequential
column recode paired with the conjunction of the per-column matches. -/
theorem recodeGo_ok {header : List String} {conds : CondDict} :
    ∀ {rows : List (List Value)} {mask : List Bool}
      {out : List (List Value) × List Bool},
      (conds.map Prod.fst).Nodup → mask.length = rows.length →
      recodeGo header conds rows mask = Except.ok out →
      out.1 = rows.map (rowRecoded header conds) ∧
      out.2 = List.zipWith (· && ·) mask (rows.map (rowKept header conds)) := by
  induction conds with
  | nil =>
      intro rows mask out _ hlen h
      simp only [recodeGo] at h
      cases h
      have hid : rowRecoded header ([] : CondDict) = fun r => r :=
        funext fun r => rfl
      have htrue : rowKept header ([] : CondDict) = fun _ => true :=
        funext fun r => rfl
      constructor
      · simp [hid]
      · rw [htrue, zipWith_and_true hlen]
  | cons cr0 rest ih =>
      intro rows mask out hnd hlen h
      obtain ⟨c, rules⟩ := cr0
      simp only [List.map_cons, List.nodup_cons] at hnd
      have hrestne : ∀ cr' ∈ rest, cr'.1 ≠ c := by
        intro cr' hm hcc
        exact hnd.1 (hcc ▸ List.mem_map_of_mem Prod.fst hm)
      simp only [recodeGo] at h
      split at h
      · cases h
      · rename_i i hc
        split at h
        · cases h
        · split at h
          · cases h
          · have hlen2 :
                (List.zipWith (· && ·) mask (columnMask rows i rules)).length =
                  (applyColumn rows i rules).length := by
              simp [columnMask, applyColumn, hlen]
            obtain ⟨h1, h2⟩ := ih hnd.2 hlen2 h
            constructor
            · rw [h1, applyColumn, List.map_map]
              apply List.map_congr_left
              intro r _
              rw [rowRecoded_cons]
              simp [hc]
            · rw [h2, applyColumn, List.map_map]
              have hmask :
                  rows.map ((rowKept header rest) ∘
                    (fun r => r.set i (selectValue rules (r.getD i Value.null)))) =
                    rows.map (rowKept header rest) := by
                apply List.map_congr_left
                intro r _
                exact rowKept_set hc hrestne r _
              rw [hmask, columnMask, zipWith_and_assoc, zipWith_and_map_same]
              congr 1
              apply List.map_congr_left
              intro r _
              rw [rowKept_cons, cellOf_eq_getD hc]

/-- A successful non-empty recode call keeps the header and returns
exactly the recoded rows whose every configured column matched, in their
original order. -/
theorem recode_ok_spec {t : Table} {conds : CondDict} {t' : Table}
    (hnd : (conds.map Prod.fst).Nodup)
    (h : case_report_multiple_conditions t conds = Except.ok t')
    (hne : conds ≠ []) :
    t'.header = t.header ∧
    t'.rows = t.rows.filterMap (fun r =>
      if rowKept t.header conds r then some (rowRecoded t.header conds r)
      else none) := by
  unfold case_report_multiple_conditions at h
  rw [if_neg (by simpa using hne)] at h
  cases hgo : recodeGo t.header conds t.rows (t.rows.map fun _ => true) with
  | error e => rw [hgo] at h; cases h
  | ok rm =>
      rw [hgo] at h
      obtain ⟨h1, h2⟩ := recodeGo_ok hnd (by simp) hgo
      cases h
      refine ⟨rfl, ?_⟩
      simp only [h1, h2]
      rw [zipWith_and_map_same]
      simp only [Bool.true_and]
      exact zip_map_filterMap t.rows _ _

/-! ### The failure behavior of the recode loop: whole-column coercion -/

theorem firstBadCell_eq_none {vals : List Value} :
    ∀ {i : Nat}, firstBadCell i vals = none ↔
      ∀ v ∈ vals, (coerceFloat v).isSome := by
  induction vals with
  | nil => intro i; simp [firstBadCell]
  | cons v vs ih =>
      intro i
      by_cases hv : (coerceFloat v).isNone
      · simp only [firstBadCell, if_pos hv]
        simp only [Option.isNone_iff_eq_none] at hv
        simp [hv]
      · simp only [firstBadCell, if_neg hv, ih]
        simp only [Option.isNone_iff_eq_none] at hv
        have : (coerceFloat v).isSome := Option.isSome_iff_ne_none.mpr hv
        simp [this]

theorem firstBadCell_some {vals : List Value} :
    ∀ {i j : Nat} {v : Value}, firstBadCell i vals = some (j, v) →
      v ∈ vals ∧ (coerceFloat v).isNone := by
  induction vals with
  | nil => intro i j v h; simp [firstBadCell] at h
  | cons w ws ih =>
      intro i j v h
      by_cases hw : (coerceFloat w).isNone
      · simp only [firstBadCell, if_pos hw, Option.some_inj, Prod.mk.injEq] at h
        rcases h with ⟨-, rfl⟩
        exact ⟨List.mem_cons_self w ws, hw⟩
      · simp only [firstBadCell, if_neg hw] at h
        obtain ⟨hm, hn⟩ := ih h
        exact ⟨List.mem_cons_of_mem w hm, hn⟩

/-- A validated rule either passes (and, when numeric, certifies the whole
column float-coercible) or fails with a coercion error for some cell. -/
theorem checkRule_cases {c : String} {vals : List Value} {k : String}
    (hthr : numericKey k = true → (pyFloat? (strTail k (keyOpLen k))).isSome) :
    (checkRule c vals k = Except.ok () ∧
      (numericKey k = true → ∀ v ∈ vals, (coerceFloat v).isSome)) ∨
    (∃ j v, checkRule c vals k = Except.error (RecodeErr.typeCoercion c j v) ∧
      numericKey k = true ∧ ¬ ∀ v ∈ vals, (coerceFloat v).isSome) := by
  by_cases hk : numericKey k = true
  · cases hbad : firstBadCell 0 vals with
    | some jv =>
        refine Or.inr ⟨jv.1, jv.2, ?_, hk, ?_⟩
        · simp [checkRule, hk, hbad]
        · intro hall
          obtain ⟨hm, hn⟩ := firstBadCell_some (by simpa using hbad)
          rw [Option.isNone_iff_eq_none] at hn
          have := hall jv.2 hm
          simp [hn] at this
    | none =>
        refine Or.inl ⟨?_, fun _ => firstBadCell_eq_none.mp hbad⟩
        obtain ⟨x, hx⟩ := Option.isSome_iff_exists.mp (hthr hk)
        simp [checkRule, hk, hbad, hx]
  · exact Or.inl ⟨by simp [checkRule, hk], fun h => absurd h hk⟩

/-- A validated rule list either passes (certifying every column with some
numeric rule fully coercible) or fails with a coercion error. -/
theorem checkRules_cases {c : String} {vals : List Value} {rules : RuleList}
    (hthr : ∀ kr ∈ rules, numericKey kr.1 = true →
      (pyFloat? (strTail kr.1 (keyOpLen kr.1))).isSome) :
    (checkRules c vals rules = Except.ok () ∧
      ∀ kr ∈ rules, numericKey kr.1 = true → ∀ v ∈ vals, (coerceFloat v).isSome) ∨
    (∃ j v, checkRules c vals rules = Except.error (RecodeErr.typeCoercion c j v) ∧
      (∃ kr ∈ rules, numericKey kr.1 = true) ∧
      ¬ ∀ v ∈ vals, (coerceFloat v).isSome) := by
  induction rules with
  | nil => exact Or.inl ⟨rfl, by simp⟩
  | cons kr rest ih =>
      have hthr1 : numericKey kr.1 = true →
          (pyFloat? (strTail kr.1 (keyOpLen kr.1))).isSome :=
        hthr kr (List.mem_cons_self kr rest)
      have hthr2 : ∀ kr' ∈ rest, numericKey kr'.1 = true →
          (pyFloat? (strTail kr'.1 (keyOpLen kr'.1))).isSome :=
        fun kr' hm => hthr kr' (List.mem_cons_of_mem kr hm)
      rcases @checkRule_cases c vals kr.1 hthr1 with ⟨hok, hcoer⟩ | ⟨j, v, herr, hnum, hbad⟩
      · rcases ih hthr2 with ⟨hok2, hcoer2⟩ | ⟨j, v, herr2, hnum2, hbad2⟩
        · refine Or.inl ⟨?_, ?_⟩
          · simp [checkRules, hok, hok2]
          · intro kr' hm
            rcases List.mem_cons.mp hm with rfl | hm'
            · exact hcoer
            · exact hcoer2 kr' hm'
        · refine Or.inr ⟨j, v, ?_, ?_, hbad2⟩
          · simp [checkRules, hok, herr2]
          · obtain ⟨kr', hm', hn'⟩ := hnum2
            exact ⟨kr', List.mem_cons_of_mem kr hm', hn'⟩
      · refine Or.inr ⟨j, v, ?_, ⟨kr, List.mem_cons_self kr rest, hnum⟩, hbad⟩
        simp [checkRules, herr]

/-- On a well-formed rule set (configured columns present, each with a
non-empty rule list of parseable thresholds) the recode loop succeeds
exactly when every column carrying some numeric rule is float-coercible in
every row; otherwise it stops with a coercion error.  The coercibility
requirement covers every row of the column — `astype(float)` converts the
whole column before any row is selected or filtered. -/
theorem recodeGo_total {header : List String} {conds : CondDict} :
    ∀ {rows : List (List Value)} {mask : List Bool},
      (conds.map Prod.fst).Nodup →
      (∀ cr ∈ conds, (colIdx header cr.1).isSome) →
      (∀ cr ∈ conds, cr.2 ≠ []) →
      (∀ cr ∈ conds, ∀ kr ∈ cr.2, numericKey kr.1 = true →
        (pyFloat? (strTail kr.1 (keyOpLen kr.1))).isSome) →
      ((∀ cr ∈ conds, ∀ kr ∈ cr.2, numericKey kr.1 = true →
          ∀ r ∈ rows, (coerceFloat (cellOf header r cr.1)).isSome) →
        ∃ out, recodeGo header conds rows mask = Except.ok out) ∧
      ((∃ cr ∈ conds, ∃ kr ∈ cr.2, numericKey kr.1 = true ∧
          ∃ r ∈ rows, ¬ (coerceFloat (cellOf header r cr.1)).isSome = true) →
        ∃ c j v, recodeGo header conds rows mask =
          Except.error (RecodeErr.typeCoercion c j v)) := by
  induction conds with
  | nil =>
      intro rows mask _ _ _ _
      exact ⟨fun _ => ⟨(rows, mask), rfl⟩, fun h => by simp at h⟩
  | cons cr0 rest ih =>
      intro rows mask hnd hexist hrne hthr
      obtain ⟨c, rules⟩ := cr0
      simp only [List.map_cons, List.nodup_cons] at hnd
      have hrestne : ∀ cr' ∈ rest, cr'.1 ≠ c := by
        intro cr' hm hcc
        exact hnd.1 (hcc ▸ List.mem_map_of_mem Prod.fst hm)
      obtain ⟨i, hc⟩ := Option.isSome_iff_exists.mp
        (hexist (c, rules) (List.mem_cons_self _ rest))
      have hcell : ∀ r : List Value, cellOf header r c = r.getD i Value.null :=
        fun r => cellOf_eq_getD hc r
      have hcellrest : ∀ cr' ∈ rest, ∀ r : List Value, ∀ a : Value,
          cellOf header (r.set i a) cr'.1 = cellOf header r cr'.1 :=
        fun cr' hm r a => cellOf_set_ne hc (hrestne cr' hm) r a
      -- the column values `astype(float)` scans
      have hthr1 : ∀ kr ∈ rules, numericKey kr.1 = true →
          (pyFloat? (strTail kr.1 (keyOpLen kr.1))).isSome :=
        fun kr hm => hthr (c, rules) (List.mem_cons_self _ rest) kr hm
      rcases @checkRules_cases c (rows.map (fun r => r.getD i Value.null))
          rules hthr1 with
        ⟨hok, hcoer⟩ | ⟨j, v, herr, ⟨kr, hkrm, hkrn⟩, hbad⟩
      · -- the head column validates; recurse into the remaining columns
        have hrne1 : rules ≠ [] := hrne (c, rules) (List.mem_cons_self _ rest)
        have step : recodeGo header ((c, rules) :: rest) rows mask =
            recodeGo header rest (applyColumn rows i rules)
              (List.zipWith (· && ·) mask (columnMask rows i rules)) := by
          simp only [recodeGo, hc, hok]
          rw [if_neg (by simpa using hrne1)]
        have ihs := @ih (applyColumn rows i rules)
          (List.zipWith (· && ·) mask (columnMask rows i rules))
          hnd.2
          (fun cr' hm => hexist cr' (List.mem_cons_of_mem _ hm))
          (fun cr' hm => hrne cr' (List.mem_cons_of_mem _ hm))
          (fun cr' hm => hthr cr' (List.mem_cons_of_mem _ hm))
        have htrans : ∀ cr' ∈ rest, ∀ r' ∈ applyColumn rows i rules,
            ∃ r ∈ rows, cellOf header r' cr'.1 = cellOf header r cr'.1 := by
          intro cr' hm r' hr'
          obtain ⟨r, hr, rfl⟩ := List.mem_map.mp hr'
          exact ⟨r, hr, hcellrest cr' hm r _⟩
        constructor
        · intro hall
          rw [step]
          apply ihs.1
          intro cr' hm kr' hkr' hn r' hr'
          obtain ⟨r, hr, heq⟩ := htrans cr' hm r' hr'
          rw [heq]
          exact hall cr' (List.mem_cons_of_mem _ hm) kr' hkr' hn r hr
        · intro hex
          rw [step]
          apply ihs.2
          obtain ⟨cr', hm, kr', hkr', hn, r, hr, hbadr⟩ := hex
          rcases List.mem_cons.mp hm with heq | hm'
          · -- the witness cannot be the head column: it validated
            exfalso
            apply hbadr
            have h1 : cr'.1 = c := by rw [heq]
            have h2 : cr'.2 = rules := by rw [heq]
            rw [h1, hcell r]
            exact hcoer kr' (h2 ▸ hkr') hn (r.getD i Value.null)
              (List.mem_map_of_mem _ hr)
          · refine ⟨cr', hm', kr', hkr', hn,
              r.set i (selectValue rules (r.getD i Value.null)), ?_, ?_⟩
            · exact List.mem_map_of_mem _ hr
            · rw [hcellrest cr' hm' r _]
              exact hbadr
      · -- the head column fails `astype(float)`
        have hstop : recodeGo header ((c, rules) :: rest) rows mask =
            Except.error (RecodeErr.typeCoercion c j v) := by
          simp only [recodeGo, hc, herr]
        constructor
        · intro hall
          exfalso
          apply hbad
          intro w hw
          obtain ⟨r, hr, rfl⟩ := List.mem_map.mp hw
          rw [← hcell r]
          exact hall (c, rules) (List.mem_cons_self _ rest) kr hkrm hkrn r hr
        · intro _
          exact ⟨c, j, v, hstop⟩

/-- Lift of `recodeGo_total` to the transform. -/
theorem recode_total {t : Table} {conds : CondDict}
    (hnd : (conds.map Prod.fst).Nodup)
    (hexist : ∀ cr ∈ conds, (colIdx t.header cr.1).isSome)
    (hrne : ∀ cr ∈ conds, cr.2 ≠ [])
    (hthr : ∀ cr ∈ conds, ∀ kr ∈ cr.2, numericKey kr.1 = true →
      (pyFloat? (strTail kr.1 (keyOpLen kr.1))).isSome) :
    ((∀ cr ∈ conds, ∀ kr ∈ cr.2, numericKey kr.1 = true →
        ∀ r ∈ t.rows, (coerceFloat (cellOf t.header r cr.1)).isSome) →
      ∃ t', case_report_multiple_conditions t conds = Except.ok t') ∧
    ((∃ cr ∈ conds, ∃ kr ∈ cr.2, numericKey kr.1 = true ∧
        ∃ r ∈ t.rows, ¬ (coerceFloat (cellOf t.header r cr.1)).isSome = true) →
      ∃ c j v, case_report_multiple_conditions t conds =
        Except.error (RecodeErr.typeCoercion c j v)) := by
  by_cases hne : conds.isEmpty
  · have hnil : conds = [] := by simpa using hne
    subst hnil
    exact ⟨fun _ => ⟨t, rfl⟩, fun h => by simp at h⟩
  · have hg := @recodeGo_total t.header conds t.rows
      (t.rows.map (fun _ => true)) hnd hexist hrne hthr
    constructor
    · intro hall
      obtain ⟨out, hout⟩ := hg.1 hall
      refine ⟨⟨t.header,
        (out.1.zip out.2).filterMap (fun rb => if rb.2 then some rb.1 else none)⟩, ?_⟩
      unfold case_report_multiple_conditions
      rw [if_neg hne, hout]
    · intro hex
      obtain ⟨c, j, v, herr⟩ := hg.2 hex
      refine ⟨c, j, v, ?_⟩
      unfold case_report_multiple_conditions
      rw [if_neg hne, herr]

/-- Every configured column of a successful non-empty recode exists. -/
theorem recode_ok_cols {t : Table} {conds : CondDict} {t' : Table}
    (hok : case_report_multiple_conditions t conds = Except.ok t')
    (hne : conds ≠ []) :
    ∀ cr ∈ conds, (colIdx t.header cr.1).isSome := by
  unfold case_report_multiple_conditions at hok
  rw [if_neg (by simpa using hne)] at hok
  cases hgo : recodeGo t.header conds t.rows (t.rows.map fun _ => true) with
  | error e => rw [hgo] at hok; cases hok
  | ok rm => exact recodeGo_cols hgo

/-! ### Claim theorems for the recode transform -/

/-- Claim C1: for every table and every non-empty rule set, a successful
recode retains a row exactly when, for every configured column, at least
one of that column's rules matches the row's value in that column; all
other rows are dropped, and the retained (recoded) rows appear in their
original relative order — the output is the order-preserving `filterMap`
of the input rows. -/
theorem recode_retains_iff_all_columns_match (t : Table) (conds : CondDict)
    (t' : Table) (hne : conds ≠ []) (hnd : (conds.map Prod.fst).Nodup)
    (hok : case_report_multiple_conditions t conds = Except.ok t') :
    t'.rows = t.rows.filterMap (fun r =>
      if rowKept t.header conds r then some (rowRecoded t.header conds r)
      else none) ∧
    ∀ r : List Value, rowKept t.header conds r = true ↔
      ∀ cr ∈ conds, ∃ kr ∈ cr.2,
        ruleMatches kr.1 (cellOf t.header r cr.1) = true := by
  refine ⟨(recode_ok_spec hnd hok hne).2, ?_⟩
  intro r
  simp [rowKept, anyRule, List.all_eq_true, List.any_eq_true]

/-- Claim C2: when more than one rule of a configured column's ordered
rule list matches a row's value, the replacement written into the output
is the one of the first matching rule in declaration order (`find?` over
the ordered list); rules after the first match have no effect, and the
recoded row is what a retained row contributes to the output. -/
theorem recode_first_match_wins (t : Table) (conds : CondDict) (t' : Table)
    (c : String) (rules : RuleList) (k res : String) (r : List Value)
    (hwf : t.WF) (hnd : (conds.map Prod.fst).Nodup)
    (hok : case_report_multiple_conditions t conds = Except.ok t')
    (hmem : (c, rules) ∈ conds) (hr : r ∈ t.rows)
    (hfind : rules.find? (fun kr => ruleMatches kr.1 (cellOf t.header r c)) =
      some (k, res)) :
    cellOf t.header (rowRecoded t.header conds r) c = Value.str res ∧
    (rowKept t.header conds r = true →
      rowRecoded t.header conds r ∈ t'.rows) := by
  have hne : conds ≠ [] := List.ne_nil_of_mem hmem
  obtain ⟨i, hi⟩ := Option.isSome_iff_exists.mp (recode_ok_cols hok hne (c, rules) hmem)
  have hlen : t.header.length ≤ r.length := le_of_eq (hwf.2 r hr).symm
  constructor
  · rw [rowRecoded_cell hnd hmem hi hlen]
    simp [selectValue, hfind]
  · intro hkept
    rw [(recode_ok_spec hnd hok hne).2]
    exact List.mem_filterMap.mpr ⟨r, hr, by simp [hkept]⟩

/-- Claim C3: with every configured column present, rule lists non-empty
and thresholds parseable, a recode succeeds exactly when every cell
evaluated under a numeric comparison predicate — that is, every cell of
every column carrying such a predicate, since `astype(float)` evaluates
the whole column — is float-coercible; a non-coercible value under a
numeric predicate surfaces a `typeCoercion` error identifying a cell
(column name and row position), and no table is produced. -/
theorem recode_coercion_surfaced (t : Table) (conds : CondDict)
    (hnd : (conds.map Prod.fst).Nodup)
    (hexist : ∀ cr ∈ conds, cr.1 ∈ t.header)
    (hrne : ∀ cr ∈ conds, cr.2 ≠ [])
    (hthr : ∀ cr ∈ conds, ∀ kr ∈ cr.2, numericKey kr.1 = true →
      (pyFloat? (strTail kr.1 (keyOpLen kr.1))).isSome = true) :
    ((∀ cr ∈ conds, ∀ kr ∈ cr.2, numericKey kr.1 = true →
        ∀ r ∈ t.rows, (coerceFloat (cellOf t.header r cr.1)).isSome = true) →
      ∃ t', case_report_multiple_conditions t conds = Except.ok t') ∧
    ((∃ cr ∈ conds, ∃ kr ∈ cr.2, numericKey kr.1 = true ∧
        ∃ r ∈ t.rows, ¬ (coerceFloat (cellOf t.header r cr.1)).isSome = true) →
      ∃ c j v, case_report_multiple_conditions t conds =
        Except.error (RecodeErr.typeCoercion c j v)) := by
  have hexist' : ∀ cr ∈ conds, (colIdx t.header cr.1).isSome :=
    fun cr hm => colIdx_isSome_iff.mpr (hexist cr hm)
  exact recode_total hnd hexist' hrne hthr

/-- Claim C9: a numeric comparison rule on a column coerces the entire
column to float before any row is evaluated, so one non-coercible cell
anywhere in that column fails the whole call — even when that cell's row
is matched by an earlier equality rule, and even when the filter would
drop it (the statement places no condition on the row); failure is
all-or-nothing per call, never per cell, and no table is produced. -/
theorem recode_whole_column_coercion (t : Table) (conds : CondDict)
    (c : String) (rules : RuleList) (k res : String) (r : List Value)
    (hnd : (conds.map Prod.fst).Nodup)
    (hexist : ∀ cr ∈ conds, cr.1 ∈ t.header)
    (hrne : ∀ cr ∈ conds, cr.2 ≠ [])
    (hthr : ∀ cr ∈ conds, ∀ kr ∈ cr.2, numericKey kr.1 = true →
      (pyFloat? (strTail kr.1 (keyOpLen kr.1))).isSome = true)
    (hmem : (c, rules) ∈ conds) (hk : (k, res) ∈ rules)
    (hnum : numericKey k = true) (hr : r ∈ t.rows)
    (hbad : (coerceFloat (cellOf t.header r c)).isSome = false) :
    (∃ c' j v, case_report_multiple_conditions t conds =
      Except.error (RecodeErr.typeCoercion c' j v)) ∧
    ∀ t', case_report_multiple_conditions t conds ≠ Except.ok t' := by
  have hexist' : ∀ cr ∈ conds, (colIdx t.header cr.1).isSome :=
    fun cr hm => colIdx_isSome_iff.mpr (hexist cr hm)
  have herr := (recode_total hnd hexist' hrne hthr).2
    ⟨(c, rules), hmem, (k, res), hk, hnum, r, hr, by simp [hbad]⟩
  refine ⟨herr, ?_⟩
  obtain ⟨c', j, v, herr'⟩ := herr
  intro t' hok
  rw [herr'] at hok
  cases hok

/-! ### Group enumeration lemmas -/

theorem mem_firstOccurAux {α : Type} [DecidableEq α] {l : List α} :
    ∀ {acc : List α} {a : α}, a ∈ firstOccurAux acc l ↔ a ∈ acc ∨ a ∈ l := by
  induction l with
  | nil => intro acc a; simp [firstOccurAux]
  | cons x xs ih =>
      intro acc a
      by_cases hx : x ∈ acc
      · rw [firstOccurAux, if_pos hx, ih]
        constructor
        · rintro (h | h)
          · exact Or.inl h
          · exact Or.inr (List.mem_cons_of_mem x h)
        · rintro (h | h)
          · exact Or.inl h
          · rcases List.mem_cons.mp h with rfl | h'
            · exact Or.inl hx
            · exact Or.inr h'
      · rw [firstOccurAux, if_neg hx, ih]
        simp only [List.mem_append, List.mem_singleton, List.mem_cons]
        tauto

theorem nodup_firstOccurAux {α : Type} [DecidableEq α] {l : List α} :
    ∀ {acc : List α}, acc.Nodup → (firstOccurAux acc l).Nodup := by
  induction l with
  | nil => intro acc h; exact h
  | cons x xs ih =>
      intro acc h
      by_cases hx : x ∈ acc
      · rw [firstOccurAux, if_pos hx]
        exact ih h
      · rw [firstOccurAux, if_neg hx]
        apply ih
        simp [List.nodup_append, h, hx, List.disjoint_singleton]

theorem mem_firstOccur {α : Type} [DecidableEq α] {l : List α} {a : α} :
    a ∈ firstOccur l ↔ a ∈ l := by
  rw [firstOccur, mem_firstOccurAux]
  simp

theorem nodup_firstOccur {α : Type} [DecidableEq α] (l : List α) :
    (firstOccur l).Nodup :=
  nodup_firstOccurAux List.nodup_nil

theorem length_firstOccur_eq_card {α : Type} [DecidableEq α] (l : List α) :
    (firstOccur l).length = l.toFinset.card := by
  have hset : (firstOccur l).toFinset = l.toFinset := by
    apply Finset.ext
    intro a
    simp [List.mem_toFinset, mem_firstOccur]
  rw [← hset, List.toFinset_card_of_nodup (nodup_firstOccur l)]

/-! ### Claim theorems for the grouping transform -/

/-- Claim C4: grouping with `dropna=False` treats null as its own group
key — rows with null grouping cells are not dropped: every input row's key
tuple heads some output row, and the number of output rows is the number
of distinct key tuples (null-keyed tuples included). -/
theorem group_null_own_group (t : Table) (gcols acols : List String)
    (funcs : List (String × String)) (hg0 : gcols ≠ [])
    (hg : ∀ c ∈ gcols, c ∈ t.header) (ha : ∀ c ∈ acols, c ∈ t.header)
    (hfc : ∀ cf ∈ funcs, cf.1 ∈ acols) (hff : ∀ cf ∈ funcs, cf.2 ∈ knownAggs) :
    ∃ o, group_by_report t gcols acols funcs = Except.ok o ∧
      o.rows.length = (t.rows.map (groupKey t.header gcols)).toFinset.card ∧
      ∀ r ∈ t.rows, ∃ orow ∈ o.rows,
        orow.take gcols.length = groupKey t.header gcols r := by
  have h1 : gcols.find? (fun c => decide (c ∉ t.header)) = none :=
    List.find?_eq_none.mpr (fun c hc => by simpa using hg c hc)
  have h2 : acols.find? (fun c => decide (c ∉ t.header)) = none :=
    List.find?_eq_none.mpr (fun c hc => by simpa using ha c hc)
  have h3 : funcs.find? (fun cf => decide (cf.1 ∉ acols)) = none :=
    List.find?_eq_none.mpr (fun cf hcf => by simpa using hfc cf hcf)
  have h4 : funcs.find? (fun cf => decide (cf.2 ∉ knownAggs)) = none :=
    List.find?_eq_none.mpr (fun cf hcf => by simpa using hff cf hcf)
  refine ⟨⟨gcols ++ funcs.map Prod.fst,
      (firstOccur (t.rows.map (groupKey t.header gcols))).map (fun key =>
        key ++ funcs.map (fun cf =>
          applyAgg cf.2
            ((t.rows.filter (fun r => decide (groupKey t.header gcols r = key))).map
              (fun r => cellOf t.header r cf.1))))⟩, ?_, ?_, ?_⟩
  · unfold group_by_report
    rw [if_neg (by simpa using hg0), h1, h2, h3, h4]
  · show (List.map _ (firstOccur (t.rows.map (groupKey t.header gcols)))).length = _
    rw [List.length_map]
    exact length_firstOccur_eq_card _
  · intro r hr
    refine ⟨groupKey t.header gcols r ++ funcs.map (fun cf =>
      applyAgg cf.2
        ((t.rows.filter (fun r' =>
            decide (groupKey t.header gcols r' = groupKey t.header gcols r))).map
          (fun r' => cellOf t.header r' cf.1))), ?_, ?_⟩
    · apply List.mem_map_of_mem
      exact mem_firstOccur.mpr (List.mem_map_of_mem _ hr)
    · have hklen : (groupKey t.header gcols r).length = gcols.length := by
        simp [groupKey]
      rw [← hklen, List.take_left]

/-- Claim C7: a group spec naming a grouping or value column absent from
the table, or an unrecognized aggregation identifier, makes the grouping
transform fail with a configuration error; no table is produced. -/
theorem group_bad_config_fails (t : Table) (gcols acols : List String)
    (funcs : List (String × String))
    (hbad : (∃ c ∈ gcols, c ∉ t.header) ∨ (∃ c ∈ acols, c ∉ t.header) ∨
      (∃ cf ∈ funcs, cf.2 ∉ knownAggs)) :
    ∃ e, group_by_report t gcols acols funcs = Except.error e ∧
      ∀ o, group_by_report t gcols acols funcs ≠ Except.ok o := by
  suffices h : ∃ e, group_by_report t gcols acols funcs = Except.error e by
    obtain ⟨e, he⟩ := h
    refine ⟨e, he, ?_⟩
    intro o ho
    rw [he] at ho
    cases ho
  unfold group_by_report
  by_cases h0 : gcols.isEmpty
  · rw [if_pos h0]
    exact ⟨_, rfl⟩
  · rw [if_neg h0]
    cases h1 : gcols.find? (fun c => decide (c ∉ t.header)) with
    | some c => exact ⟨_, rfl⟩
    | none =>
        cases h2 : acols.find? (fun c => decide (c ∉ t.header)) with
        | some c => exact ⟨_, rfl⟩
        | none =>
            cases h3 : funcs.find? (fun cf => decide (cf.1 ∉ acols)) with
            | some cf => exact ⟨_, rfl⟩
            | none =>
                cases h4 : funcs.find? (fun cf => decide (cf.2 ∉ knownAggs)) with
                | some cf => exact ⟨_, rfl⟩
                | none =>
                    exfalso
                    have k1 := List.find?_eq_none.mp h1
                    have k2 := List.find?_eq_none.mp h2
                    have k4 := List.find?_eq_none.mp h4
                    rcases hbad with ⟨c, hc, hn⟩ | ⟨c, hc, hn⟩ | ⟨cf, hcf, hn⟩
                    · exact hn (by simpa using k1 c hc)
                    · exact hn (by simpa using k2 c hc)
                    · exact hn (by simpa using k4 cf hcf)

/-! ### Pivot lemmas -/

theorem filter_subsumed {α : Type} (p q : α → Bool) (l : List α)
    (h : ∀ a, p a = true → q a = true) :
    (l.filter q).filter p = l.filter p := by
  rw [List.filter_filter]
  apply List.filter_congr
  intro a _
  cases hp : p a
  · simp
  · simp [h a hp]

/-- A cell computed over the null-key-free rows equals the cell computed
over all input rows, for non-null keys: null-keyed rows can match no
non-null key pair. -/
theorem pivotCell_keyRows (t : Table) (index columns values : String)
    {iv cv : Value} (hiv : iv ≠ Value.null) (hcv : cv ≠ Value.null) :
    pivotCell t.header (keyRowsOf t index columns) columns values index iv cv =
      pivotCell t.header t.rows columns values index iv cv := by
  unfold pivotCell keyRowsOf
  rw [filter_subsumed]
  intro r hp
  simp only [decide_eq_true_eq] at hp ⊢
  refine ⟨?_, ?_⟩
  · rw [hp.1]; exact hiv
  · rw [hp.2]; exact hcv

theorem pivotIvs_ne_null {t : Table} {index columns : String} :
    ∀ iv ∈ pivotIvs t index columns, iv ≠ Value.null := by
  intro iv hm
  rw [pivotIvs, mem_firstOccur] at hm
  obtain ⟨r, hr, rfl⟩ := List.mem_map.mp hm
  have := List.of_mem_filter hr
  simp only [decide_eq_true_eq] at this
  exact this.1

theorem pivotCvs_ne_null {t : Table} {index columns : String} :
    ∀ cv ∈ pivotCvs t index columns, cv ≠ Value.null := by
  intro cv hm
  rw [pivotCvs, mem_firstOccur] at hm
  obtain ⟨r, hr, rfl⟩ := List.mem_map.mp hm
  have := List.of_mem_filter hr
  simp only [decide_eq_true_eq] at this
  exact this.2

/-- A successful pivot call names columns present in the input and returns
the grid built from the null-key-free rows. -/
theorem pivot_ok_elim {t : Table} {index columns values : String} {o : Table}
    (hok : pivot_report t index columns values = Except.ok o) :
    o = ⟨index :: (pivotCvs t index columns).map labelOf,
      (pivotIvs t index columns).map (fun iv =>
        iv :: (pivotCvs t index columns).map
          (pivotCell t.header (keyRowsOf t index columns) columns values index iv))⟩ := by
  unfold pivot_report at hok
  split at hok
  · cases hok
  · split at hok
    · cases hok
    · split at hok
      · cases hok
      · cases hok
        rfl

/-! ### Claim theorems for the pivot transform -/

/-- Claim C5: each cell of the pivot output equals the sum of the value
column over exactly the input rows sharing that (index value,
columns-value) pair, and a pair with no matching input rows yields null,
not zero: the output grid has one row per distinct non-null index key,
each carrying the key and then one cell per distinct non-null columns
key, all computed from the full input row list. -/
theorem pivot_cell_is_sum (t : Table) (index columns values : String)
    (o : Table) (hok : pivot_report t index columns values = Except.ok o) :
    ∃ ivs cvs : List Value,
      (∀ iv ∈ ivs, iv ≠ Value.null) ∧ (∀ cv ∈ cvs, cv ≠ Value.null) ∧
      o.rows = ivs.map (fun iv => iv :: cvs.map
        (pivotCell t.header t.rows columns values index iv)) ∧
      ∀ iv cv,
        pivotCell t.header t.rows columns values index iv cv =
          (if (t.rows.filter (fun r => decide (cellOf t.header r index = iv ∧
              cellOf t.header r columns = cv))).isEmpty then Value.null
           else Value.num (ratSum (numsOf
             ((t.rows.filter (fun r => decide (cellOf t.header r index = iv ∧
                 cellOf t.header r columns = cv))).map
               (fun r => cellOf t.header r values))))) := by
  refine ⟨pivotIvs t index columns, pivotCvs t index columns,
    pivotIvs_ne_null, pivotCvs_ne_null, ?_, ?_⟩
  · rw [pivot_ok_elim hok]
    apply List.map_congr_left
    intro iv hiv
    congr 1
    apply List.map_congr_left
    intro cv hcv
    exact pivotCell_keyRows t index columns values
      (pivotIvs_ne_null iv hiv) (pivotCvs_ne_null cv hcv)
  · intro iv cv
    cases hf : t.rows.filter (fun r => decide (cellOf t.header r index = iv ∧
        cellOf t.header r columns = cv)) with
    | nil =>
        unfold pivotCell
        rw [hf]
        simp
    | cons m ms =>
        unfold pivotCell
        rw [hf]
        simp

/-- Claim C10: input rows whose index key or columns key is null
contribute to no output group — the pivot of a table equals the pivot of
the table with those rows removed — and, unlike the grouping transform
where null keys form their own group, no output row is keyed by null. -/
theorem pivot_null_keys_dropped (t : Table) (index columns values : String) :
    pivot_report t index columns values =
      pivot_report ⟨t.header, keyRowsOf t index columns⟩ index columns values ∧
    ∀ o, pivot_report t index columns values = Except.ok o →
      ∀ orow ∈ o.rows, orow.headD Value.null ≠ Value.null := by
  constructor
  · have hkr : keyRowsOf ⟨t.header, keyRowsOf t index columns⟩ index columns =
        keyRowsOf t index columns := by
      show (keyRowsOf t index columns).filter _ = _
      rw [keyRowsOf, List.filter_filter]
      apply List.filter_congr
      intro a _
      exact Bool.and_self _
    unfold pivot_report
    simp only [pivotIvs, pivotCvs, hkr]
  · intro o hok orow hm
    rw [pivot_ok_elim hok] at hm
    obtain ⟨iv, hiv, rfl⟩ := List.mem_map.mp hm
    exact pivotIvs_ne_null iv hiv

/-! ### Melt lemmas -/

theorem flatMap_length_uniform {α β : Type} (l : List α) (f : α → List β)
    (n : Nat) (h : ∀ a ∈ l, (f a).length = n) :
    (l.flatMap f).length = l.length * n := by
  induction l with
  | nil => simp
  | cons a as ih =>
      simp only [List.flatMap_cons, List.length_append, List.length_cons]
      rw [h a (List.mem_cons_self a as),
        ih (fun a' ha => h a' (List.mem_cons_of_mem _ ha))]
      ring

theorem flatMap_getElem_uniform {α β : Type} (f : α → List β) (n : Nat)
    (dflt : α) :
    ∀ (l : List α) {j i : Nat}, (∀ a ∈ l, (f a).length = n) →
      j < l.length → i < n →
      (l.flatMap f)[j * n + i]? = (f (l.getD j dflt))[i]? := by
  intro l
  induction l with
  | nil => intro j i _ hj _; simp at hj
  | cons a as ih =>
      intro j i h hj hi
      have hlen : (f a).length = n := h a (List.mem_cons_self a as)
      cases j with
      | zero =>
          simp only [List.flatMap_cons, Nat.zero_mul, Nat.zero_add]
          rw [List.getElem?_append_left (by rw [hlen]; exact hi)]
          simp
      | succ j' =>
          simp only [List.flatMap_cons]
          rw [List.getElem?_append_right (by rw [hlen, Nat.succ_mul]; omega)]
          have hidx : (j' + 1) * n + i - (f a).length = j' * n + i := by
            rw [hlen, Nat.succ_mul]
            omega
          rw [hidx, ih (fun a' ha => h a' (List.mem_cons_of_mem _ ha))
            (by simpa using hj) hi]
          simp

/-- A successful melt call returns the header and grid of the embedding. -/
theorem unpivot_ok_elim {t : Table} {id_vars value_vars : List String}
    {o : Table} (hok : unpivot_report t id_vars value_vars = Except.ok o) :
    o = ⟨id_vars ++ ["variable", "value"],
      value_vars.flatMap (fun m => t.rows.map (fun r =>
        id_vars.map (cellOf t.header r) ++
          [Value.str m, cellOf t.header r m]))⟩ := by
  unfold unpivot_report at hok
  split at hok
  · cases hok
  · cases hok
    rfl

/-! ### Claim theorem for the melt transform -/

/-- Claim C6: a successful melt of N input rows and M melted columns has
exactly M×N output rows and (identifier count + 2) columns, and output row
j·N+i carries input row i's identifier cells verbatim, the j-th melted
column's name in the variable field, and that column's cell in row i in
the value field. -/
theorem unpivot_shape_and_content (t : Table) (id_vars value_vars : List String)
    (o : Table) (hok : unpivot_report t id_vars value_vars = Except.ok o) :
    o.rows.length = value_vars.length * t.rows.length ∧
    o.header.length = id_vars.length + 2 ∧
    ∀ j i, j < value_vars.length → i < t.rows.length →
      o.rows.getD (j * t.rows.length + i) [] =
        id_vars.map (cellOf t.header (t.rows.getD i [])) ++
          [Value.str (value_vars.getD j ""),
            cellOf t.header (t.rows.getD i []) (value_vars.getD j "")] := by
  rw [unpivot_ok_elim hok]
  refine ⟨?_, ?_, ?_⟩
  · exact flatMap_length_uniform _ _ _ (fun a _ => by simp)
  · simp
  · intro j i hj hi
    rw [List.getD_eq_getElem?_getD,
      flatMap_getElem_uniform _ t.rows.length "" value_vars
        (fun a _ => by simp) hj hi]
    rw [List.getElem?_map]
    rw [List.getElem?_eq_getElem hi]
    simp [List.getD_eq_getElem?_getD, List.getElem?_eq_getElem hi]

/-! ### Claim theorems for object identity of the transforms -/

/-- Claim C8, counterexample: with the empty rule set the recode transform
returns the very input object — source line 51 is `return df` — so here
the output object carries the input's id 0 rather than the fresh id 1:
the engine does alias output with input on this path, refuting the claim
that no transform ever returns the same object as its input. -/
theorem recode_empty_aliases_input :
    caseReportObj ⟨0, ⟨["a"], [[Value.num 1]]⟩⟩ [] 1 =
      Except.ok ⟨0, ⟨["a"], [[Value.num 1]]⟩⟩ ∧ (0 : Nat) ≠ 1 :=
  ⟨rfl, by decide⟩

/-- Claim C8, amended: every transform leaves its input unmodified (the
embedding is pure: an input object's value is never written), and
aggregate, pivot, unpivot and recode with a non-empty rule set return a
freshly allocated object, never aliasing the input; recode with an empty
rule set, however, returns the input object itself, unchanged. -/
theorem transforms_fresh_output (df : TableObj) (fresh : Nat)
    (hf : fresh ≠ df.oid) :
    (∀ gcols acols funcs o,
      groupByObj df gcols acols funcs fresh = Except.ok o → o.oid ≠ df.oid) ∧
    (∀ conds o, conds ≠ [] →
      caseReportObj df conds fresh = Except.ok o → o.oid ≠ df.oid) ∧
    (∀ index columns values o,
      pivotObj df index columns values fresh = Except.ok o → o.oid ≠ df.oid) ∧
    (∀ id_vars value_vars o,
      unpivotObj df id_vars value_vars fresh = Except.ok o → o.oid ≠ df.oid) ∧
    caseReportObj df [] fresh = Except.ok df := by
  refine ⟨?_, ?_, ?_, ?_, rfl⟩
  · intro gcols acols funcs o ho
    unfold groupByObj at ho
    cases hg : group_by_report df.val gcols acols funcs with
    | error e => rw [hg] at ho; cases ho
    | ok tt => rw [hg] at ho; cases ho; exact hf
  · intro conds o hne ho
    unfold caseReportObj at ho
    rw [if_neg (by simpa using hne)] at ho
    cases hg : case_report_multiple_conditions df.val conds with
    | error e => rw [hg] at ho; cases ho
    | ok tt => rw [hg] at ho; cases ho; exact hf
  · intro index columns values o ho
    unfold pivotObj at ho
    cases hg : pivot_report df.val index columns values with
    | error e => rw [hg] at ho; cases ho
    | ok tt => rw [hg] at ho; cases ho; exact hf
  · intro id_vars value_vars o ho
    unfold unpivotObj at ho
    cases hg : unpivot_report df.val id_vars value_vars with
    | error e => rw [hg] at ho; cases ho
    | ok tt => rw [hg] at ho; cases ho; exact hf

/-! ### Witnesses: the claim theorems applied at the example frames -/

/-- The C1 theorem at the specification's filter example: rules
Black→Dark, Silver→Light retain the Black and Silver rows, recoded, in
order, and drop the Red row. -/
theorem recode_retains_iff_all_columns_match_witness :
    exRecodeC ≠ [] ∧ (exRecodeC.map Prod.fst).Nodup ∧
    case_report_multiple_conditions exRecodeT exRecodeC = Except.ok exRecodeO ∧
    (exRecodeO.rows = exRecodeT.rows.filterMap (fun r =>
      if rowKept exRecodeT.header exRecodeC r
      then some (rowRecoded exRecodeT.header exRecodeC r) else none) ∧
    ∀ r : List Value, rowKept exRecodeT.header exRecodeC r = true ↔
      ∀ cr ∈ exRecodeC, ∃ kr ∈ cr.2,
        ruleMatches kr.1 (cellOf exRecodeT.header r cr.1) = true) :=
  ⟨by decide, by decide, by decide,
    recode_retains_iff_all_columns_match exRecodeT exRecodeC exRecodeO
      (by decide) (by decide) (by decide)⟩

/-- The C2 theorem at the specification's speed example: both rules match
600 and the first in declaration order, `>500`→High, writes the cell. -/
theorem recode_first_match_wins_witness :
    exSpeedT.WF ∧ (exSpeedC.map Prod.fst).Nodup ∧
    case_report_multiple_conditions exSpeedT exSpeedC = Except.ok exSpeedO ∧
    ((exSpeedC.map Prod.snd).headD []).find? (fun kr =>
      ruleMatches kr.1 (cellOf exSpeedT.header [Value.num 600] "speed")) =
        some (">500", "High") ∧
    (cellOf exSpeedT.header
        (rowRecoded exSpeedT.header exSpeedC [Value.num 600]) "speed" =
      Value.str "High" ∧
    (rowKept exSpeedT.header exSpeedC [Value.num 600] = true →
      rowRecoded exSpeedT.header exSpeedC [Value.num 600] ∈ exSpeedO.rows)) :=
  ⟨by decide, by decide, by decide, by decide,
    recode_first_match_wins exSpeedT exSpeedC exSpeedO "speed"
      [(">500", "High"), (">=0", "Low")] ">500" "High" [Value.num 600]
      (by decide) (by decide) (by decide) (by decide) (by decide) (by decide)⟩

/-- The C3 theorem at the coercion example: the `c` column carries the
numeric rule `>500` and the non-coercible cell "oops", so the call fails
with a coercion error; had every cell been coercible it would have
succeeded. -/
theorem recode_coercion_surfaced_witness :
    (exCoerceC.map Prod.fst).Nodup ∧
    (∀ cr ∈ exCoerceC, cr.1 ∈ exCoerceT.header) ∧
    (∀ cr ∈ exCoerceC, cr.2 ≠ []) ∧
    (∀ cr ∈ exCoerceC, ∀ kr ∈ cr.2, numericKey kr.1 = true →
      (pyFloat? (strTail kr.1 (keyOpLen kr.1))).isSome = true) ∧
    (((∀ cr ∈ exCoerceC, ∀ kr ∈ cr.2, numericKey kr.1 = true →
        ∀ r ∈ exCoerceT.rows,
          (coerceFloat (cellOf exCoerceT.header r cr.1)).isSome = true) →
      ∃ t', case_report_multiple_conditions exCoerceT exCoerceC =
        Except.ok t') ∧
    ((∃ cr ∈ exCoerceC, ∃ kr ∈ cr.2, numericKey kr.1 = true ∧
        ∃ r ∈ exCoerceT.rows,
          ¬ (coerceFloat (cellOf exCoerceT.header r cr.1)).isSome = true) →
      ∃ c j v, case_report_multiple_conditions exCoerceT exCoerceC =
        Except.error (RecodeErr.typeCoercion c j v))) :=
  ⟨by decide, by decide, by decide, by decide,
    recode_coercion_surfaced exCoerceT exCoerceC
      (by decide) (by decide) (by decide) (by decide)⟩

/-- The C9 theorem at the coercion example: the bad cell "oops" sits in a
row the filter would drop, and the other row is matched by the equality
rule Black→Dark, yet the whole call fails and no table is produced. -/
theorem recode_whole_column_coercion_witness :
    (exCoerceC.map Prod.fst).Nodup ∧
    (∀ cr ∈ exCoerceC, cr.1 ∈ exCoerceT.header) ∧
    (∀ cr ∈ exCoerceC, cr.2 ≠ []) ∧
    (∀ cr ∈ exCoerceC, ∀ kr ∈ cr.2, numericKey kr.1 = true →
      (pyFloat? (strTail kr.1 (keyOpLen kr.1))).isSome = true) ∧
    ("c", [("Black", "Dark"), (">500", "High")]) ∈ exCoerceC ∧
    (">500", "High") ∈ [("Black", "Dark"), (">500", "High")] ∧
    numericKey ">500" = true ∧ [Value.str "oops"] ∈ exCoerceT.rows ∧
    (coerceFloat (cellOf exCoerceT.header [Value.str "oops"] "c")).isSome = false ∧
    ((∃ c' j v, case_report_multiple_conditions exCoerceT exCoerceC =
        Except.error (RecodeErr.typeCoercion c' j v)) ∧
      ∀ t', case_report_multiple_conditions exCoerceT exCoerceC ≠
        Except.ok t') :=
  ⟨by decide, by decide, by decide, by decide, by decide, by decide,
    by decide, by decide, by decide,
    recode_whole_column_coercion exCoerceT exCoerceC "c"
      [("Black", "Dark"), (">500", "High")] ">500" "High" [Value.str "oops"]
      (by decide) (by decide) (by decide) (by decide) (by decide) (by decide)
      (by decide) (by decide) (by decide)⟩

/-- The C4 theorem at the specification's null-grouping example: grouping
`x` over [1, null, null] with sum over `y` yields the two groups (1) and
(null). -/
theorem group_null_own_group_witness :
    (["x"] : List String) ≠ [] ∧
    (∀ c ∈ ["x"], c ∈ exGroupT.header) ∧
    (∀ c ∈ ["y"], c ∈ exGroupT.header) ∧
    (∀ cf ∈ [("y", "sum")], cf.1 ∈ ["y"]) ∧
    (∀ cf ∈ [("y", "sum")], cf.2 ∈ knownAggs) ∧
    group_by_report exGroupT ["x"] ["y"] [("y", "sum")] =
      Except.ok ⟨["x", "y"],
        [[Value.num 1, Value.num 10], [Value.null, Value.num 50]]⟩ ∧
    (∃ o, group_by_report exGroupT ["x"] ["y"] [("y", "sum")] = Except.ok o ∧
      o.rows.length =
        (exGroupT.rows.map (groupKey exGroupT.header ["x"])).toFinset.card ∧
      ∀ r ∈ exGroupT.rows, ∃ orow ∈ o.rows,
        orow.take (["x"] : List String).length =
          groupKey exGroupT.header ["x"] r) :=
  ⟨by decide, by decide, by decide, by decide, by decide, by decide,
    group_null_own_group exGroupT ["x"] ["y"] [("y", "sum")]
      (by decide) (by decide) (by decide) (by decide) (by decide)⟩

/-- The C7 theorem at a grouping column name absent from the frame. -/
theorem group_bad_config_fails_witness :
    ((∃ c ∈ (["z"] : List String), c ∉ exBadT.header) ∨
      (∃ c ∈ (["x"] : List String), c ∉ exBadT.header) ∨
      (∃ cf ∈ [("x", "sum")], cf.2 ∉ knownAggs)) ∧
    (∃ e, group_by_report exBadT ["z"] ["x"] [("x", "sum")] =
        Except.error e ∧
      ∀ o, group_by_report exBadT ["z"] ["x"] [("x", "sum")] ≠
        Except.ok o) :=
  ⟨by decide,
    group_bad_config_fails exBadT ["z"] ["x"] [("x", "sum")] (by decide)⟩

/-- The C5 theorem at the pivot example (null keys among the input rows,
one empty (b, q) combination in the grid). -/
theorem pivot_cell_is_sum_witness :
    pivot_report exPivotT "i" "c" "v" = Except.ok exPivotO ∧
    (∃ ivs cvs : List Value,
      (∀ iv ∈ ivs, iv ≠ Value.null) ∧ (∀ cv ∈ cvs, cv ≠ Value.null) ∧
      exPivotO.rows = ivs.map (fun iv => iv :: cvs.map
        (pivotCell exPivotT.header exPivotT.rows "c" "v" "i" iv)) ∧
      ∀ iv cv,
        pivotCell exPivotT.header exPivotT.rows "c" "v" "i" iv cv =
          (if (exPivotT.rows.filter (fun r =>
              decide (cellOf exPivotT.header r "i" = iv ∧
                cellOf exPivotT.header r "c" = cv))).isEmpty then Value.null
           else Value.num (ratSum (numsOf
             ((exPivotT.rows.filter (fun r =>
                 decide (cellOf exPivotT.header r "i" = iv ∧
                   cellOf exPivotT.header r "c" = cv))).map
               (fun r => cellOf exPivotT.header r "v")))))) :=
  ⟨by decide,
    pivot_cell_is_sum exPivotT "i" "c" "v" exPivotO (by decide)⟩

/-- The C10 theorem at the pivot example: the two null-keyed rows of
`exPivotT` contribute nothing, and no output row is keyed by null. -/
theorem pivot_null_keys_dropped_witness :
    pivot_report exPivotT "i" "c" "v" =
      pivot_report ⟨exPivotT.header, keyRowsOf exPivotT "i" "c"⟩ "i" "c" "v" ∧
    ∀ o, pivot_report exPivotT "i" "c" "v" = Except.ok o →
      ∀ orow ∈ o.rows, orow.headD Value.null ≠ Value.null :=
  pivot_null_keys_dropped exPivotT "i" "c" "v"

/-- The C6 theorem at the melt example: 2 melted columns × 2 rows give 4
output rows of 1 + 2 columns with the expected cells. -/
theorem unpivot_shape_and_content_witness :
    unpivot_report exMeltT ["id"] ["u", "w"] = Except.ok exMeltO ∧
    (exMeltO.rows.length =
      (["u", "w"] : List String).length * exMeltT.rows.length ∧
    exMeltO.header.length = (["id"] : List String).length + 2 ∧
    ∀ j i, j < (["u", "w"] : List String).length → i < exMeltT.rows.length →
      exMeltO.rows.getD (j * exMeltT.rows.length + i) [] =
        (["id"] : List String).map (cellOf exMeltT.header (exMeltT.rows.getD i [])) ++
          [Value.str ((["u", "w"] : List String).getD j ""),
            cellOf exMeltT.header (exMeltT.rows.getD i [])
              ((["u", "w"] : List String).getD j "")]) :=
  ⟨by decide,
    unpivot_shape_and_content exMeltT ["id"] ["u", "w"] exMeltO (by decide)⟩

/-- The C8 amended theorem at a concrete frame object with id 0 and fresh
id 1. -/
theorem transforms_fresh_output_witness :
    (1 : Nat) ≠ (TableObj.mk 0 exRecodeT).oid ∧
    ((∀ gcols acols funcs o,
      groupByObj ⟨0, exRecodeT⟩ gcols acols funcs 1 = Except.ok o →
        o.oid ≠ (TableObj.mk 0 exRecodeT).oid) ∧
    (∀ conds o, conds ≠ [] →
      caseReportObj ⟨0, exRecodeT⟩ conds 1 = Except.ok o →
        o.oid ≠ (TableObj.mk 0 exRecodeT).oid) ∧
    (∀ index columns values o,
      pivotObj ⟨0, exRecodeT⟩ index columns values 1 = Except.ok o →
        o.oid ≠ (TableObj.mk 0 exRecodeT).oid) ∧
    (∀ id_vars value_vars o,
      unpivotObj ⟨0, exRecodeT⟩ id_vars value_vars 1 = Except.ok o →
        o.oid ≠ (TableObj.mk 0 exRecodeT).oid) ∧
    caseReportObj ⟨0, exRecodeT⟩ [] 1 = Except.ok ⟨0, exRecodeT⟩) :=
  ⟨by decide, transforms_fresh_output ⟨0, exRecodeT⟩ 1 (by decide)⟩

end ReportGen
